import Mathlib

/-! # Website-Monitor: verified model of the check-and-diff engine

Shallow embedding of `main.py` of the Website-Monitor repository.
Character strings are modelled as lists of characters and byte strings as
lists of natural numbers, so that every definition is executable.  External
collaborators (the HTTP client, the HTML parser, the real clock, the
filesystem and the Telegram transport) are passed in as explicit
capabilities, mirroring the spec's component boundaries.
-/

namespace WebsiteMonitor

/-- Character strings of the Python program, modelled as lists of characters. -/
abbrev Str : Type := List Char

/-- Byte strings of the Python program, modelled as lists of byte values. -/
abbrev ByteStr : Type := List Nat

/-- Converts a Lean string literal to the character-list representation. -/
def str (s : String) : Str := s.data

/-! ## Fingerprint: `get_sha256` (main.py lines 93-103)

The source calls `hashlib.sha256(byte_string).hexdigest()`.  The SHA-256
algorithm (FIPS 180-4) is embedded here directly so the fingerprint is a
concrete executable function: 32-bit words are naturals reduced modulo
`2 ^ 32`.
-/

/-- Reduction of a natural number to a 32-bit word. -/
def w32 (n : Nat) : Nat := n % 4294967296

/-- Right rotation of a 32-bit word by `k` positions. -/
def rotr (k x : Nat) : Nat := w32 ((x >>> k) ||| (x <<< (32 - k)))

/-- Big sigma-0 function of SHA-256. -/
def bsig0 (x : Nat) : Nat := (rotr 2 x) ^^^ (rotr 13 x) ^^^ (rotr 22 x)

/-- Big sigma-1 function of SHA-256. -/
def bsig1 (x : Nat) : Nat := (rotr 6 x) ^^^ (rotr 11 x) ^^^ (rotr 25 x)

/-- Small sigma-0 function of SHA-256. -/
def ssig0 (x : Nat) : Nat := (rotr 7 x) ^^^ (rotr 18 x) ^^^ (x >>> 3)

/-- Small sigma-1 function of SHA-256. -/
def ssig1 (x : Nat) : Nat := (rotr 17 x) ^^^ (rotr 19 x) ^^^ (x >>> 10)

/-- Choice function of SHA-256 (`¬x` is taken inside 32 bits). -/
def chF (x y z : Nat) : Nat := (x &&& y) ^^^ ((x ^^^ 4294967295) &&& z)

/-- Majority function of SHA-256. -/
def majF (x y z : Nat) : Nat := (x &&& y) ^^^ (x &&& z) ^^^ (y &&& z)

/-- Round constants of SHA-256 (FIPS 180-4 section 4.2.2), in decimal. -/
def shaK : List Nat :=
  [1116352408, 1899447441, 3049323471, 3921009573,
   961987163, 1508970993, 2453635748, 2870763221,
   3624381080, 310598401, 607225278, 1426881987,
   1925078388, 2162078206, 2614888103, 3248222580,
   3835390401, 4022224774, 264347078, 604807628,
   770255983, 1249150122, 1555081692, 1996064986,
   2554220882, 2821834349, 2952996808, 3210313671,
   3336571891, 3584528711, 113926993, 338241895,
   666307205, 773529912, 1294757372, 1396182291,
   1695183700, 1986661051, 2177026350, 2456956037,
   2730485921, 2820302411, 3259730800, 3345764771,
   3516065817, 3600352804, 4094571909, 275423344,
   430227734, 506948616, 659060556, 883997877,
   958139571, 1322822218, 1537002063, 1747873779,
   1955562222, 2024104815, 2227730452, 2361852424,
   2428436474, 2756734187, 3204031479, 3329325298]

/-- Big-endian byte decomposition of a natural number on `k` bytes. -/
def toBytesBE : Nat → Nat → ByteStr
  | 0, _ => []
  | k + 1, n => toBytesBE k (n / 256) ++ [n % 256]

/-- Groups a byte string into big-endian 32-bit words. -/
def toWordsBE : ByteStr → List Nat
  | b1 :: b2 :: b3 :: b4 :: rest =>
    (((b1 * 256 + b2) * 256 + b3) * 256 + b4) :: toWordsBE rest
  | _ => []

/-- SHA-256 message padding: a `0x80` byte, zero bytes up to 56 modulo 64,
then the bit length on eight big-endian bytes. -/
def padMsg (msg : ByteStr) : ByteStr :=
  msg ++ [128] ++ List.replicate ((120 - (msg.length + 1) % 64) % 64) 0
      ++ toBytesBE 8 (8 * msg.length)

/-- Splits a byte string into 64-byte blocks; the fuel argument makes the
recursion structural so the kernel can evaluate it. -/
def chunks64 : Nat → ByteStr → List ByteStr
  | 0, _ => []
  | _, [] => []
  | fuel + 1, l => l.take 64 :: chunks64 fuel (l.drop 64)

/-- Working state of the SHA-256 compression function. -/
structure H8 where
  a : Nat
  b : Nat
  c : Nat
  d : Nat
  e : Nat
  f : Nat
  g : Nat
  h : Nat
  deriving DecidableEq

/-- Extends the 16-word message schedule; one fuel unit adds one word. -/
def extendW : List Nat → Nat → List Nat
  | ws, 0 => ws
  | ws, fuel + 1 =>
    let i := ws.length
    extendW (ws ++ [w32 (ssig1 (ws.getD (i - 2) 0) + ws.getD (i - 7) 0
      + ssig0 (ws.getD (i - 15) 0) + ws.getD (i - 16) 0)]) fuel

/-- One round of the SHA-256 compression function. -/
def roundStep (st : H8) (kw : Nat × Nat) : H8 :=
  let t1 := w32 (st.h + bsig1 st.e + chF st.e st.f st.g + kw.1 + kw.2)
  let t2 := w32 (bsig0 st.a + majF st.a st.b st.c)
  ⟨w32 (t1 + t2), st.a, st.b, st.c, w32 (st.d + t1), st.e, st.f, st.g⟩

/-- Processes one 64-byte block. -/
def processBlock (st : H8) (block : ByteStr) : H8 :=
  let ws := extendW (toWordsBE block) 48
  let r := (shaK.zip ws).foldl roundStep st
  ⟨w32 (st.a + r.a), w32 (st.b + r.b), w32 (st.c + r.c), w32 (st.d + r.d),
   w32 (st.e + r.e), w32 (st.f + r.f), w32 (st.g + r.g), w32 (st.h + r.h)⟩

/-- SHA-256 digest of a byte string, as eight 32-bit words. -/
def sha256Digest (msg : ByteStr) : H8 :=
  (chunks64 (padMsg msg).length (padMsg msg)).foldl processBlock
    ⟨1779033703, 3144134277, 1013904242, 2773480762,
     1359893119, 2600822924, 528734635, 1541459225⟩

/-- Lower-case hexadecimal digits, in value order. -/
def hexDigitChars : Str := str "0123456789abcdef"

/-- Hexadecimal digit of a value below 16. -/
def hexDigitCh (n : Nat) : Char := hexDigitChars.getD n '0'

/-- Fixed-width lower-case hexadecimal rendering on `k` digits. -/
def toHexFixed : Nat → Nat → Str
  | 0, _ => []
  | k + 1, n => toHexFixed k (n / 16) ++ [hexDigitCh (n % 16)]

/-- Model of `get_sha256` (main.py lines 93-103): the lower-case hexadecimal
digest string of the SHA-256 hash of `byte_string`. -/
def get_sha256 (byte_string : ByteStr) : Str :=
  let d := sha256Digest byte_string
  ([d.a, d.b, d.c, d.d, d.e, d.f, d.g, d.h].map (toHexFixed 8)).flatten

/-- Recognises a lower-case hexadecimal character. -/
def isHexCh (c : Char) : Bool := c ∈ hexDigitChars

/-- UTF-8 encoding of one character. -/
def utf8EncodeChar (c : Char) : ByteStr :=
  let n := c.toNat
  if n < 128 then [n]
  else if n < 2048 then [192 + n / 64, 128 + n % 64]
  else if n < 65536 then [224 + n / 4096, 128 + (n / 64) % 64, 128 + n % 64]
  else [240 + n / 262144, 128 + (n / 4096) % 64, 128 + (n / 64) % 64, 128 + n % 64]

/-- UTF-8 encoding of a character string, as done by `bytes(s, "utf-8")`. -/
def utf8Encode (s : Str) : ByteStr := (s.map utf8EncodeChar).flatten

set_option maxRecDepth 40000 in
example :
    get_sha256 (utf8Encode (str "hello world")) =
      str "b94d27b9934d3e08a52e52d7da7dabfac484efe37a5380ee9088f7ace2efcde9" := by
  decide

theorem toHexFixed_length (k n : Nat) : (toHexFixed k n).length = k := by
  induction k generalizing n with
  | zero => rfl
  | succ k ih => simp [toHexFixed, ih]

theorem hexDigitCh_mem (n : Nat) : hexDigitCh n ∈ hexDigitChars := by
  unfold hexDigitCh
  by_cases h : n < hexDigitChars.length
  · rw [List.getD_eq_getElem _ _ h]
    exact List.getElem_mem h
  · rw [List.getD_eq_default _ _ (not_lt.mp h)]
    decide

theorem toHexFixed_hex (k n : Nat) : ∀ c ∈ toHexFixed k n, isHexCh c = true := by
  induction k generalizing n with
  | zero => intro c hc; cases hc
  | succ k ih =>
    intro c hc
    rcases List.mem_append.mp hc with h | h
    · exact ih _ c h
    · rcases List.mem_singleton.mp h with rfl
      simpa [isHexCh] using hexDigitCh_mem (n % 16)

/-- C9: `get_sha256` is deterministic — equal inputs give equal results —
and its output is always a 64-character string of hexadecimal digits. -/
theorem get_sha256_deterministic_hex (b : ByteStr) :
    get_sha256 b = get_sha256 b ∧
    (get_sha256 b).length = 64 ∧
    ∀ c ∈ get_sha256 b, isHexCh c = true := by
  refine ⟨rfl, ?_, ?_⟩
  · simp [get_sha256, toHexFixed_length]
  · intro c hc
    simp only [get_sha256, List.mem_flatten, List.mem_map] at hc
    obtain ⟨l, ⟨x, _, rfl⟩, hcl⟩ := hc
    exact toHexFixed_hex 8 x c hcl

/-! ## String utilities shared by the persistence layer

Python's `str.split(",")`, `",".join`, `str.rstrip()` and `str.lstrip(c)`
are embedded as structurally recursive functions on character lists.
-/

/-- Whitespace characters stripped by Python's `str.rstrip()`. -/
def isWS (c : Char) : Bool :=
  c = ' ' || c = '\t' || c = '\n' || c = '\r' || c = '\x0b' || c = '\x0c'

/-- Removes trailing whitespace, as Python `str.rstrip()`. -/
def rstripWS (l : Str) : Str := (l.reverse.dropWhile isWS).reverse

/-- Removes every leading `#`, as Python `str.lstrip("#")`. -/
def lstripHash (l : Str) : Str := l.dropWhile (fun c => c = '#')

/-- Removes every leading comma, as Python `str.lstrip(",")`. -/
def lstripComma (l : Str) : Str := l.dropWhile (fun c => c = ',')

/-- True when the line starts with the disable marker, as Python
`str.startswith("#")`. -/
def startsHash (l : Str) : Bool := decide (l.head? = some '#')

/-- Worker of `splitCells`, accumulating the current cell reversed. -/
def splitCellsGo : Str → Str → List Str
  | [], acc => [acc.reverse]
  | c :: cs, acc =>
    if c = ',' then acc.reverse :: splitCellsGo cs []
    else splitCellsGo cs (c :: acc)

/-- Splits a line on commas, as Python `str.split(",")`. -/
def splitCells (l : Str) : List Str := splitCellsGo l []

/-- Joins cells with commas, as Python `",".join(cells)`. -/
def joinCells : List Str → Str
  | [] => []
  | [c] => c
  | c :: cs => c ++ ',' :: joinCells cs

/-- First value bound to `k` in an association list (Python dict lookup
order: first binding wins, and a dict never has two). -/
def alistGet {α : Type} (k : Str) : List (Str × α) → Option α
  | [] => none
  | (k2, v) :: rest => if k2 = k then some v else alistGet k rest

/-- Python dict assignment `d[k] = v`: replaces the binding in place when
the key exists, otherwise appends it at the end (dict insertion order). -/
def setKey {α : Type} (k : Str) (v : α) : List (Str × α) → List (Str × α)
  | [] => [(k, v)]
  | (k2, v2) :: rest => if k2 = k then (k, v) :: rest else (k2, v2) :: setKey k v rest

/-! ## Data model -/

/-- Attribute dictionary of one record: attribute name to cell value,
`none` for a missing value (Python `None`). -/
abbrev Attrs : Type := List (Str × Option Str)

/-- Active record set: url key to attributes, in file order. -/
abbrev Records : Type := List (Str × Attrs)

/-- Disabled record set preserved by `get_commented_data`: marker-prefixed
key to attribute dictionary of raw cell texts. -/
abbrev Disabled : Type := List (Str × List (Str × Str))

/-- Failures of the monitoring pass, mirroring the Python exceptions:
`FileNotFoundError` and `IsADirectoryError` from `check_file`, the
`AssertionError` of `filter_element`, dict `KeyError`, and whatever the
external HTTP client raises. -/
inductive MonitorError where
  | fileNotFound
  | isADirectory
  | elementNotFound
  | keyError (k : Str)
  | fetchFailed (m : Str)
  deriving DecidableEq

/-! ## RecordStore: `check_file`, `get_csv_data`, `get_commented_data`,
`write_csv_data` (main.py lines 106-215) -/

/-- Filesystem metadata of the resolved table path, as observed through
`pathlib.Path.resolve().exists()` and `.is_file()`; the filesystem itself
is an external collaborator. -/
structure PathMeta where
  pathExists : Bool
  isFile : Bool
  deriving DecidableEq

/-- Model of `check_file` (main.py lines 106-126): validates the table path,
raising `FileNotFoundError` when the path does not exist and
`IsADirectoryError` when it is not a regular file (the source's two
sequential `if ... raise` statements). -/
def check_file (m : PathMeta) : Except MonitorError Unit :=
  if m.pathExists = false then .error .fileNotFound
  else if m.isFile = false then .error .isADirectory
  else .ok ()

/-- Cell conversion of pandas `read_csv` followed by `where(~isna, None)`:
an empty cell becomes the absent value `None`.  Restricted to well-formed
tables (see `wellFormedTable`), whose cells are never parsed as numbers,
booleans or NA sentinels. -/
def cellValue (c : Str) : Option Str := if c = [] then none else some c

/-- Model of `get_csv_data` (main.py lines 129-146): pandas
`read_csv(index_col=0, comment="#")` with NaN replaced by `None`, then
`to_dict(orient="index")`, on the table file given as its list of lines.
Rows whose key starts with `#` and blank lines are skipped; the first
header column is the key column and the remaining header names label the
attributes of each row. -/
def get_csv_data (lines : List Str) : Records :=
  match lines with
  | [] => []
  | headerLine :: rows =>
    let header := (splitCells headerLine).drop 1
    (rows.filter (fun l => !(startsHash l || l.isEmpty))).map (fun l =>
      let cells := splitCells l
      (cells.headD [], header.zip ((cells.drop 1).map cellValue)))

/-- Model of `get_commented_data` (main.py lines 149-174): takes the
attribute names from the first line (after `rstrip()` and `lstrip(",")`),
keeps the rows starting with `#`, strips all their leading `#` and their
trailing whitespace, splits them on commas, and keys each result by `#`
plus its first cell, zipping the remaining cells with the names. -/
def get_commented_data (lines : List Str) : Disabled :=
  match lines with
  | [] => []
  | headerLine :: rows =>
    let header := splitCells (lstripComma (rstripWS headerLine))
    let comments := (rows.filter startsHash).map
      (fun l => splitCells (rstripWS (lstripHash l)))
    comments.map (fun c => ('#' :: c.headD [], header.zip (c.drop 1)))

/-- Renders one cell back to text for `to_csv`: an absent attribute or a
`None` value becomes the empty cell. -/
def renderCell : Option (Option Str) → Str
  | some (some s) => s
  | some none => []
  | none => []

/-- Model of `write_csv_data` (main.py lines 203-215): pandas
`DataFrame(data).T.to_csv(...)` on the merged record dictionary.  Every
record carries the same attribute names in the same order (true of any data
produced by loading a well-formed table), so the frame's columns are those
names: the output is a header line with an empty key column followed by one
line per record, `None` rendered as an empty cell. -/
def write_csv_data (data : Records) : List Str :=
  let names := (data.headD ([], [])).2.map Prod.fst
  joinCells ([] :: names) ::
    data.map (fun r => joinCells (r.1 :: names.map (fun n => renderCell (alistGet n r.2))))

/-- Wraps the preserved disabled rows as record attributes and appends them
after the active records, as the merge `{**websites_data,
**commented_websites}` of the main loop (main.py line 337); in a
well-formed table the keys are distinct, so the dict merge is an append. -/
def mergeRecords (active : Records) (disabled : Disabled) : Records :=
  active ++ disabled.map (fun d => (d.1, d.2.map (fun p => (p.1, some p.2))))

/-- One load step of the main loop (main.py lines 322-326): `check_file` on
the path metadata, then `get_csv_data` and `get_commented_data` on the
content; the path is checked before anything is parsed. -/
def load (m : PathMeta) (lines : List Str) : Except MonitorError (Records × Disabled) :=
  match check_file m with
  | .error e => .error e
  | .ok _ => .ok (get_csv_data lines, get_commented_data lines)

/-! ## ContentSelector: `filter_element` (main.py lines 72-90) -/

/-- One parsed HTML tag as exposed at the BeautifulSoup interface: its
attributes and its canonical `str(...)` serialization.  The parser's
internals are an external collaborator; a parsed document is its list of
tags in document order, which is the order `soup.find` searches. -/
structure Tag where
  attrs : List (Str × Str)
  rendered : Str
  deriving DecidableEq

/-- Worker of `splitWS`, accumulating the current word reversed. -/
def splitWSGo : Str → Str → List Str
  | [], acc => if acc.isEmpty then [] else [acc.reverse]
  | c :: cs, acc =>
    if isWS c then
      if acc.isEmpty then splitWSGo cs [] else acc.reverse :: splitWSGo cs []
    else splitWSGo cs (c :: acc)

/-- Splits on whitespace runs, as the HTML multi-valued `class` attribute
is tokenized. -/
def splitWS (l : Str) : List Str := splitWSGo l []

/-- Class set of a tag: its `class` attribute split on whitespace. -/
def classesOf (t : Tag) : List Str := splitWS ((alistGet (str "class") t.attrs).getD [])

/-- Predicate of `soup.find(id=el)`: the tag's `id` attribute equals `el`. -/
def hasIdAttr (el : Str) (t : Tag) : Bool := decide (alistGet (str "id") t.attrs = some el)

/-- Predicate of `soup.find(class_=el)`: the tag's class set contains `el`. -/
def hasClassAttr (el : Str) (t : Tag) : Bool := decide (el ∈ classesOf t)

/-- Model of `filter_element` (main.py lines 72-90): an absent or empty
selector returns the content unchanged; otherwise the parsed document is
searched first by `id`, then — only when no id matches — by class; the
found tag's serialization is returned as UTF-8 bytes
(`bytes(str(to_monitor), "utf-8")`) and a miss is the source's
`AssertionError`, modelled as `elementNotFound`. -/
def filter_element (parse : ByteStr → List Tag) (content : ByteStr)
    (element : Option Str) : Except MonitorError ByteStr :=
  if (element.getD []).isEmpty then .ok content
  else
    let el := element.getD []
    let soup := parse content
    let to_monitor :=
      match soup.find? (hasIdAttr el) with
      | some t => some t
      | none => soup.find? (hasClassAttr el)
    match to_monitor with
    | some t => .ok (utf8Encode t.rendered)
    | none => .error .elementNotFound

/-! ## OutputChannel: `send_output` (main.py lines 177-200) -/

/-- One observable delivery effect of `send_output`: a `print` call to the
terminal (each call appends a newline, left implicit here) or one Telegram
`send_message` call. -/
inductive OutputAction where
  | consoleWrite (text : Str)
  | botSend (chat_id : Str) (text : Str)
  deriving DecidableEq

/-- Joins messages with a blank line, as `"\n\n".join(list_of_changes)`. -/
def joinBlank : List Str → Str
  | [] => []
  | [m] => m
  | m :: ms => m ++ '\n' :: '\n' :: joinBlank ms

/-- Model of `send_output` (main.py lines 177-200): nothing happens for an
empty list; otherwise either one Telegram message or two terminal prints,
the banner line then the joined messages.  The Telegram bot is external:
the channel is `none` for the terminal or `some (token, chat_id)`. -/
def send_output (list_of_changes : List Str) (telegram_output : Option (Str × Str)) :
    List OutputAction :=
  if list_of_changes.length ≠ 0 then
    match telegram_output with
    | some bot => [.botSend bot.2 (joinBlank list_of_changes)]
    | none => [.consoleWrite (str "⏬ Check results ⏬"),
               .consoleWrite (joinBlank list_of_changes)]
  else []

/-! ## CheckEngine: `perform_check` (main.py lines 218-261) -/

/-- Python dict item access `values[k]`, raising `KeyError` when the key is
absent. -/
def getItem (values : Attrs) (k : Str) : Except MonitorError (Option Str) :=
  match alistGet k values with
  | some v => .ok v
  | none => .error (.keyError k)

/-- Fetch → select → hash pipeline for one record: the new fingerprint
computed inside the `perform_check` loop before the comparison (main.py
lines 242-247).  The HTTP client is the external capability `fetch`. -/
def newHashOf (fetch : Str → Except MonitorError ByteStr) (parse : ByteStr → List Tag)
    (website : Str) (values : Attrs) : Except MonitorError Str :=
  match getItem values (str "filter") with
  | .error e => .error e
  | .ok id_to_monitor =>
    match fetch website with
    | .error e => .error e
    | .ok byte_response =>
      match filter_element parse byte_response id_to_monitor with
      | .error e => .error e
      | .ok element_to_monitor => .ok (get_sha256 element_to_monitor)

/-- Body of the `perform_check` loop for one record (main.py lines
237-259): reads the stored hash, computes the new fingerprint, and on a
difference returns the attributes with `hash` then `last_change_date`
updated, together with the change message.  `today` is the external
clock's `datetime.today().strftime("%Y-%m-%d")`. -/
def checkOne (fetch : Str → Except MonitorError ByteStr) (parse : ByteStr → List Tag)
    (today : Str) (website : Str) (values : Attrs) :
    Except MonitorError (Attrs × Option Str) :=
  match getItem values (str "hash") with
  | .error e => .error e
  | .ok previous_hash =>
    match newHashOf fetch parse website values with
    | .error e => .error e
    | .ok new_hash =>
      if some new_hash ≠ previous_hash then
        .ok (setKey (str "last_change_date") (some today)
               (setKey (str "hash") (some new_hash) values),
             some (website ++ str " changed!"))
      else .ok (values, none)

/-- Model of `perform_check` (main.py lines 218-261): iterates the records
in order, threading the in-place mutations of the record dictionary,
collecting one `"<url> changed!"` message per changed record, and
propagating the first failure — the source loop has no exception handler,
so an uncaught fetch or selection failure aborts the pass.  The verbose
terminal logging is omitted: it writes only log text. -/
def perform_check (fetch : Str → Except MonitorError ByteStr) (parse : ByteStr → List Tag)
    (today : Str) : Records → Except MonitorError (Records × List Str)
  | [] => .ok ([], [])
  | (website, values) :: rest =>
    match checkOne fetch parse today website values with
    | .error e => .error e
    | .ok (values2, msg) =>
      match perform_check fetch parse today rest with
      | .error e => .error e
      | .ok (rest2, msgs) =>
        .ok ((website, values2) :: rest2,
             match msg with
             | some m => m :: msgs
             | none => msgs)

/-! ## Well-formed tables -/

/-- Characters allowed in a well-formed cell: no delimiter, no comment
marker, no quoting or escape character, no whitespace. -/
def goodCh (c : Char) : Bool :=
  !(c = ',' || c = '#' || c = '"' || c = '\\' || isWS c)

/-- Cell whose characters are all allowed. -/
def goodCell (s : Str) : Bool := s.all goodCh

/-- Cell texts that pandas `read_csv` converts away from plain strings:
NA sentinels, booleans and infinities. -/
def naTokens : List Str :=
  [str "N/A", str "NA", str "NULL", str "NaN", str "None", str "n/a",
   str "nan", str "null", str "<NA>", str "True", str "False", str "TRUE",
   str "FALSE", str "true", str "false", str "inf", str "Inf", str "INF",
   str "-inf", str "Infinity", str "-Infinity"]

/-- Digit string with at most one decimal point and at least one digit. -/
def mantissaOk (m : Str) : Bool :=
  m.all (fun c => c.isDigit || c = '.') && (m.count '.' ≤ 1 : Bool) && m.any Char.isDigit

/-- Exponent part: an optional sign then a non-empty digit string. -/
def expOk (e : Str) : Bool :=
  let e2 := match e with
    | c :: rest => if c = '+' || c = '-' then rest else e
    | [] => e
  !e2.isEmpty && e2.all Char.isDigit

/-- Conservative recogniser of cells that pandas would parse as numbers:
an optional sign, a mantissa, and an optional exponent part. -/
def numLike (s : Str) : Bool :=
  let s1 := match s with
    | c :: rest => if c = '+' || c = '-' then rest else s
    | [] => s
  let p := s1.span (fun c => !(c = 'e' || c = 'E'))
  match p.2 with
  | [] => mantissaOk s1
  | _ :: ex => mantissaOk p.1 && expOk ex

/-- Value cell that survives the pandas round trip as itself: non-empty
plain text that is not an NA sentinel, a boolean or a number. -/
def goodValue (s : Str) : Bool :=
  !s.isEmpty && goodCell s && !(naTokens.contains s) && !numLike s

/-- Shape of one data row under the attribute names `names`: a key cell
followed by exactly one cell per name, all plain; an active key is a plain
value and a disabled row keeps a non-empty key after its markers. -/
def goodRow (names : List Str) (l : Str) : Bool :=
  !l.isEmpty &&
  (if startsHash l then
    let cells := splitCells (rstripWS (lstripHash l))
    (cells.length == names.length + 1) && !(cells.headD []).isEmpty &&
      cells.all goodCell
  else
    let cells := splitCells l
    (cells.length == names.length + 1) && goodValue (cells.headD []) &&
      (cells.drop 1).all (fun c => c.isEmpty || goodValue c))

/-- Key under which a data row is stored after loading. -/
def keyOf (l : Str) : Str :=
  if startsHash l then '#' :: (splitCells (rstripWS (lstripHash l))).headD []
  else (splitCells l).headD []

/-- Well-formed table: a header line with an empty key-column name and
non-empty, distinct, plain attribute names, followed by at least one data
row, every row well shaped and all stored keys distinct. -/
def wellFormedTable (lines : List Str) : Bool :=
  match lines with
  | [] => false
  | headerLine :: rows =>
    let cells := splitCells headerLine
    let names := cells.drop 1
    (cells.headD [' ']).isEmpty && !names.isEmpty && decide names.Nodup &&
      names.all (fun n => goodCell n && !n.isEmpty) &&
      !rows.isEmpty && rows.all (goodRow names) &&
      decide (rows.map keyOf).Nodup

/-! ## ContentSelector properties -/

/-- C5: with an absent or empty selector, `filter_element` returns the
input bytes unchanged, for every parser and every byte string. -/
theorem filter_element_empty_selector (parse : ByteStr → List Tag) (content : ByteStr) :
    filter_element parse content none = .ok content ∧
    filter_element parse content (some []) = .ok content :=
  ⟨rfl, rfl⟩

/-- C4: with a non-empty selector, `filter_element` searches the parsed
document first by `id` — a found tag's `id` attribute equals the selector
and its serialized bytes are returned; only when no tag matches by `id`
does it search by class membership; and when neither search succeeds it
fails with `elementNotFound` instead of returning content. -/
theorem filter_element_search_order (parse : ByteStr → List Tag) (content : ByteStr)
    (el : Str) (hel : el ≠ []) :
    (∀ t, (parse content).find? (hasIdAttr el) = some t →
      filter_element parse content (some el) = .ok (utf8Encode t.rendered) ∧
        alistGet (str "id") t.attrs = some el) ∧
    ((parse content).find? (hasIdAttr el) = none →
      (∀ t, (parse content).find? (hasClassAttr el) = some t →
        filter_element parse content (some el) = .ok (utf8Encode t.rendered) ∧
          el ∈ classesOf t) ∧
      ((parse content).find? (hasClassAttr el) = none →
        filter_element parse content (some el) = .error .elementNotFound)) := by
  have hne : ((some el : Option Str).getD []).isEmpty = false := by
    cases el with
    | nil => exact absurd rfl hel
    | cons c cs => rfl
  refine ⟨fun t ht => ⟨?_, ?_⟩, fun hid => ⟨fun t ht => ⟨?_, ?_⟩, fun hcl => ?_⟩⟩
  · simp [filter_element, hne, ht, hel]
  · simpa [hasIdAttr] using List.find?_some ht
  · simp [filter_element, hne, hid, ht, hel]
  · simpa [hasClassAttr] using List.find?_some ht
  · simp [filter_element, hne, hid, hcl, hel]

/-- C4 witness: a concrete document with one tag carrying the class but
not the id, and one carrying the id; the id match wins and its serialized
bytes come back; a fresh selector misses both and fails. -/
theorem filter_element_search_order_witness :
    str "box" ≠ [] ∧
    filter_element
      (fun _ => [⟨[(str "class", str "box")], str "<p class=box>one</p>"⟩,
                 ⟨[(str "id", str "box")], str "<p id=box>two</p>"⟩])
      (utf8Encode (str "<html></html>")) (some (str "box")) =
      .ok (utf8Encode (str "<p id=box>two</p>")) := by
  constructor
  · decide
  · have h := (filter_element_search_order
      (fun _ => [⟨[(str "class", str "box")], str "<p class=box>one</p>"⟩,
                 ⟨[(str "id", str "box")], str "<p id=box>two</p>"⟩])
      (utf8Encode (str "<html></html>")) (str "box") (by decide)).1
      ⟨[(str "id", str "box")], str "<p id=box>two</p>"⟩ (by decide)
    exact h.1

/-! ## RecordStore path checks -/

/-- C7: loading fails with `FileNotFoundError` when the table path does
not exist, and with `IsADirectoryError` when it exists but is not a
regular file; in both cases uniformly in the file content, because the
path checks precede any parsing. -/
theorem load_path_errors (m : PathMeta) (lines : List Str) :
    (m.pathExists = false → load m lines = .error .fileNotFound) ∧
    (m.pathExists = true → m.isFile = false → load m lines = .error .isADirectory) := by
  constructor
  · intro h
    simp [load, check_file, h]
  · intro h1 h2
    simp [load, check_file, h1, h2]

/-- C7 witness: a missing path and a directory path, each with arbitrary
content. -/
theorem load_path_errors_witness :
    load ⟨false, false⟩ [str "x"] = .error .fileNotFound ∧
    load ⟨true, false⟩ [str "x"] = .error .isADirectory :=
  ⟨(load_path_errors ⟨false, false⟩ [str "x"]).1 rfl,
   (load_path_errors ⟨true, false⟩ [str "x"]).2 rfl rfl⟩

/-! ## OutputChannel properties -/

/-- C8 counterexample: the terminal banner is not the bare string
`"Check results"`; at the one-message list the first print is the
decorated banner line. -/
theorem send_output_banner_counterexample :
    send_output [str "a"] none ≠
      [.consoleWrite (str "Check results"), .consoleWrite (str "a")] := by
  decide

/-- C8 (amended): `send_output` to the terminal channel emits nothing for
the empty message list; for a non-empty list it prints the banner line
`"⏬ Check results ⏬"` and then the messages joined by a blank line. -/
theorem send_output_terminal (msgs : List Str) :
    send_output [] none = [] ∧
    (msgs ≠ [] →
      send_output msgs none =
        [.consoleWrite (str "⏬ Check results ⏬"),
         .consoleWrite (joinBlank msgs)]) := by
  refine ⟨rfl, fun h => ?_⟩
  have hlen : msgs.length ≠ 0 := fun hh => h (List.length_eq_zero.mp hh)
  simp [send_output, hlen]

/-- C8 witness: two concrete messages delivered to the terminal. -/
theorem send_output_terminal_witness :
    send_output [str "a", str "b"] none =
      [.consoleWrite (str "⏬ Check results ⏬"),
       .consoleWrite (joinBlank [str "a", str "b"])] :=
  (send_output_terminal [str "a", str "b"]).2 (by decide)

/-! ## CheckEngine properties -/

/-- C6: a fetch or selection failure for one record aborts the whole pass:
when every earlier record checks successfully and the current record's
check fails, `perform_check` propagates exactly that failure whatever
records follow — no message list is produced and the later records are
never examined. -/
theorem perform_check_aborts (fetch : Str → Except MonitorError ByteStr)
    (parse : ByteStr → List Tag) (today : Str) (pre : Records)
    (website : Str) (values : Attrs) (e : MonitorError)
    (hpre : ∀ r ∈ pre, ∃ out, checkOne fetch parse today r.1 r.2 = .ok out)
    (hfail : checkOne fetch parse today website values = .error e) :
    ∀ rest, perform_check fetch parse today (pre ++ (website, values) :: rest) =
      .error e := by
  induction pre with
  | nil =>
    intro rest
    simp [perform_check, hfail]
  | cons r pre ih =>
    intro rest
    obtain ⟨w2, v2⟩ := r
    obtain ⟨out, hout⟩ := hpre (w2, v2) (by simp)
    have htail := ih (fun r2 h2 => hpre r2 (by simp [h2])) rest
    simp [perform_check, hout, htail]

/-- C6 witness: the HTTP client is down; the single record's check fails
and the failure is the pass's result. -/
theorem perform_check_aborts_witness :
    perform_check (fun _ => .error (.fetchFailed (str "down"))) (fun _ => [])
      (str "2026-10-12")
      ([] ++ (str "http://a.example",
              [(str "hash", none), (str "filter", none)]) :: []) =
      .error (.fetchFailed (str "down")) :=
  perform_check_aborts (fun _ => .error (.fetchFailed (str "down"))) (fun _ => [])
    (str "2026-10-12") [] (str "http://a.example")
    [(str "hash", none), (str "filter", none)] (.fetchFailed (str "down"))
    (fun r hr => absurd hr (by simp)) rfl []

theorem perform_check_cons_ok (fetch : Str → Except MonitorError ByteStr)
    (parse : ByteStr → List Tag) (today : Str) (w : Str) (v : Attrs)
    (rest : Records) (u : Records) (m : List Str)
    (h : perform_check fetch parse today ((w, v) :: rest) = .ok (u, m)) :
    ∃ v2 msg rest2 msgs,
      checkOne fetch parse today w v = .ok (v2, msg) ∧
      perform_check fetch parse today rest = .ok (rest2, msgs) ∧
      u = (w, v2) :: rest2 ∧
      m = (match msg with | some s => s :: msgs | none => msgs) := by
  unfold perform_check at h
  cases h1 : checkOne fetch parse today w v with
  | error e => simp [h1] at h
  | ok p =>
    obtain ⟨v2, msg⟩ := p
    simp only [h1] at h
    cases h2 : perform_check fetch parse today rest with
    | error e => simp [h2] at h
    | ok q =>
      obtain ⟨rest2, msgs⟩ := q
      simp only [h2, Except.ok.injEq, Prod.mk.injEq] at h
      exact ⟨v2, msg, rest2, msgs, rfl, rfl, h.1.symm, h.2.symm⟩

theorem checkOne_msg (fetch : Str → Except MonitorError ByteStr)
    (parse : ByteStr → List Tag) (today : Str) (website : Str) (values : Attrs)
    (v2 : Attrs) (msg : Option Str)
    (h : checkOne fetch parse today website values = .ok (v2, msg)) :
    msg = none ∨ msg = some (website ++ str " changed!") := by
  unfold checkOne at h
  cases h1 : getItem values (str "hash") with
  | error e => simp [h1] at h
  | ok prev =>
    simp only [h1] at h
    cases h2 : newHashOf fetch parse website values with
    | error e => simp [h2] at h
    | ok nh =>
      simp only [h2] at h
      by_cases hd : some nh ≠ prev
      · rw [if_pos hd] at h
        simp only [Except.ok.injEq, Prod.mk.injEq] at h
        exact Or.inr h.2.symm
      · rw [if_neg hd] at h
        simp only [Except.ok.injEq, Prod.mk.injEq] at h
        exact Or.inl h.2.symm

theorem checkOne_changed (fetch : Str → Except MonitorError ByteStr)
    (parse : ByteStr → List Tag) (today : Str) (website : Str) (values : Attrs)
    (v2 : Attrs) (msg : Option Str) (h : Str)
    (hrun : checkOne fetch parse today website values = .ok (v2, msg))
    (hnew : newHashOf fetch parse website values = .ok h)
    (hdiff : alistGet (str "hash") values ≠ some (some h)) :
    v2 = setKey (str "last_change_date") (some today)
           (setKey (str "hash") (some h) values) ∧
    msg = some (website ++ str " changed!") := by
  unfold checkOne at hrun
  cases h1 : alistGet (str "hash") values with
  | none => simp [getItem, h1] at hrun
  | some prev =>
    simp only [getItem, h1, hnew] at hrun
    have hd : some h ≠ prev := by
      intro he
      exact hdiff (h1.trans (congrArg Option.some he.symm))
    rw [if_pos hd] at hrun
    simp only [Except.ok.injEq, Prod.mk.injEq] at hrun
    exact ⟨hrun.1.symm, hrun.2.symm⟩

theorem checkOne_unchanged (fetch : Str → Except MonitorError ByteStr)
    (parse : ByteStr → List Tag) (today : Str) (website : Str) (values : Attrs)
    (v2 : Attrs) (msg : Option Str) (h : Str)
    (hrun : checkOne fetch parse today website values = .ok (v2, msg))
    (hnew : newHashOf fetch parse website values = .ok h)
    (hsame : alistGet (str "hash") values = some (some h)) :
    v2 = values ∧ msg = none := by
  unfold checkOne at hrun
  simp only [getItem, hsame, hnew] at hrun
  rw [if_neg (by simp)] at hrun
  simp only [Except.ok.injEq, Prod.mk.injEq] at hrun
  exact ⟨hrun.1.symm, hrun.2.symm⟩

theorem perform_check_length (fetch : Str → Except MonitorError ByteStr)
    (parse : ByteStr → List Tag) (today : Str) :
    ∀ l u m, perform_check fetch parse today l = .ok (u, m) → u.length = l.length := by
  intro l
  induction l with
  | nil =>
    intro u m h
    simp only [perform_check, Except.ok.injEq, Prod.mk.injEq] at h
    simp [← h.1]
  | cons r rest ih =>
    intro u m h
    obtain ⟨w, v⟩ := r
    obtain ⟨v2, msg, rest2, msgs, _, hp, hu, _⟩ :=
      perform_check_cons_ok fetch parse today w v rest u m h
    subst hu
    simp [ih rest2 msgs hp]

theorem perform_check_msgs_mem (fetch : Str → Except MonitorError ByteStr)
    (parse : ByteStr → List Tag) (today : Str) :
    ∀ l u m, perform_check fetch parse today l = .ok (u, m) →
      ∀ s ∈ m, ∃ r, r ∈ l ∧ s = r.1 ++ str " changed!" := by
  intro l
  induction l with
  | nil =>
    intro u m h s hs
    simp only [perform_check, Except.ok.injEq, Prod.mk.injEq] at h
    rw [← h.2] at hs
    cases hs
  | cons r rest ih =>
    intro u m h s hs
    obtain ⟨w, v⟩ := r
    obtain ⟨v2, msg, rest2, msgs, hc, hp, _, hm⟩ :=
      perform_check_cons_ok fetch parse today w v rest u m h
    subst hm
    rcases checkOne_msg fetch parse today w v v2 msg hc with rfl | rfl
    · obtain ⟨r2, hr2, hs2⟩ := ih rest2 msgs hp s hs
      exact ⟨r2, List.mem_cons_of_mem _ hr2, hs2⟩
    · rcases List.mem_cons.mp hs with rfl | hs2
      · exact ⟨(w, v), List.mem_cons_self _ _, rfl⟩
      · obtain ⟨r2, hr2, hs3⟩ := ih rest2 msgs hp s hs2
        exact ⟨r2, List.mem_cons_of_mem _ hr2, hs3⟩

/-- C1: under a successful pass over records with distinct urls (dict
keys), every record whose newly computed fingerprint differs from the
stored one — including an absent (`None`) stored fingerprint — comes out
with `hash` set to the new fingerprint and `last_change_date` set to the
current date, and contributes exactly one `"<url> changed!"` message to
the returned list. -/
theorem perform_check_changed (fetch : Str → Except MonitorError ByteStr)
    (parse : ByteStr → List Tag) (today : Str) (l : Records) (u : Records)
    (m : List Str) (i : Nat) (w : Str) (v : Attrs) (h : Str)
    (hrun : perform_check fetch parse today l = .ok (u, m))
    (hnodup : (l.map Prod.fst).Nodup)
    (hget : l[i]? = some (w, v))
    (hnew : newHashOf fetch parse w v = .ok h)
    (hdiff : alistGet (str "hash") v ≠ some (some h)) :
    u.length = l.length ∧
    u[i]? = some (w, setKey (str "last_change_date") (some today)
                      (setKey (str "hash") (some h) v)) ∧
    m.count (w ++ str " changed!") = 1 := by
  induction l generalizing i u m with
  | nil => simp at hget
  | cons r rest ih =>
    obtain ⟨w0, v0⟩ := r
    obtain ⟨v2, msg, rest2, msgs, hc, hp, hu, hm⟩ :=
      perform_check_cons_ok fetch parse today w0 v0 rest u m hrun
    subst hu
    subst hm
    simp only [List.map_cons, List.nodup_cons] at hnodup
    cases i with
    | zero =>
      simp only [List.getElem?_cons_zero, Option.some.injEq, Prod.mk.injEq] at hget
      obtain ⟨hw, hv⟩ := hget
      rw [← hw] at hnew ⊢
      rw [← hv] at hnew hdiff ⊢
      obtain ⟨hv2, hmsg⟩ := checkOne_changed fetch parse today w0 v0 v2 msg h hc hnew hdiff
      subst hv2
      subst hmsg
      refine ⟨by simp [perform_check_length fetch parse today rest rest2 msgs hp], by simp, ?_⟩
      have hzero : List.count (w0 ++ str " changed!") msgs = 0 := by
        rw [List.count_eq_zero]
        intro hmem
        obtain ⟨r2, hr2, hs⟩ := perform_check_msgs_mem fetch parse today rest rest2 msgs hp _ hmem
        have hww : w0 = r2.1 := List.append_left_injective _ hs
        exact hnodup.1 (hww ▸ List.mem_map_of_mem Prod.fst hr2)
      simp [List.count_cons, hzero]
    | succ j =>
      simp only [List.getElem?_cons_succ] at hget
      obtain ⟨hlen, hgetu, hcount⟩ :=
        ih rest2 msgs j hp hnodup.2 hget
      refine ⟨by simp [hlen], by simpa using hgetu, ?_⟩
      have hwmem : w ∈ rest.map Prod.fst := by
        have hin : (w, v) ∈ rest := by
          obtain ⟨hj, hj2⟩ := List.getElem?_eq_some.mp hget
          exact hj2 ▸ List.getElem_mem hj
        exact List.mem_map_of_mem Prod.fst hin
      rcases checkOne_msg fetch parse today w0 v0 v2 msg hc with rfl | rfl
      · exact hcount
      · have hne : ¬ (w0 ++ str " changed!" = w ++ str " changed!") := by
          intro he
          have hww : w0 = w := List.append_left_injective _ he
          exact hnodup.1 (hww ▸ hwmem)
        simpa [List.count_cons, hne] using hcount

set_option maxRecDepth 100000 in
/-- C1 witness: one never-checked record (absent stored fingerprint) whose
page contains the selected element; the pass updates its `hash` and
`last_change_date` and reports exactly one change message. -/
theorem perform_check_changed_witness :
    perform_check
        (fun _ => .ok (utf8Encode (str "<html><p id=x>hi</p></html>")))
        (fun _ => [⟨[(str "id", str "x")], str "<p id=x>hi</p>"⟩])
        (str "2026-10-12")
        [(str "http://a.example",
          [(str "hash", none), (str "filter", some (str "x")),
           (str "last_change_date", none)])] =
      .ok ([(str "http://a.example",
             setKey (str "last_change_date") (some (str "2026-10-12"))
               (setKey (str "hash")
                 (some (get_sha256 (utf8Encode (str "<p id=x>hi</p>"))))
                 [(str "hash", none), (str "filter", some (str "x")),
                  (str "last_change_date", none)]))],
            [str "http://a.example" ++ str " changed!"]) ∧
    [(str "http://a.example",
      setKey (str "last_change_date") (some (str "2026-10-12"))
        (setKey (str "hash")
          (some (get_sha256 (utf8Encode (str "<p id=x>hi</p>"))))
          [(str "hash", none), (str "filter", some (str "x")),
           (str "last_change_date", none)]))][0]? =
      some (str "http://a.example",
        setKey (str "last_change_date") (some (str "2026-10-12"))
          (setKey (str "hash")
            (some (get_sha256 (utf8Encode (str "<p id=x>hi</p>"))))
            [(str "hash", none), (str "filter", some (str "x")),
             (str "last_change_date", none)])) ∧
    List.count (str "http://a.example" ++ str " changed!")
      [str "http://a.example" ++ str " changed!"] = 1 := by
  have hrun :
      perform_check
        (fun _ => .ok (utf8Encode (str "<html><p id=x>hi</p></html>")))
        (fun _ => [⟨[(str "id", str "x")], str "<p id=x>hi</p>"⟩])
        (str "2026-10-12")
        [(str "http://a.example",
          [(str "hash", none), (str "filter", some (str "x")),
           (str "last_change_date", none)])] =
      .ok ([(str "http://a.example",
             setKey (str "last_change_date") (some (str "2026-10-12"))
               (setKey (str "hash")
                 (some (get_sha256 (utf8Encode (str "<p id=x>hi</p>"))))
                 [(str "hash", none), (str "filter", some (str "x")),
                  (str "last_change_date", none)]))],
            [str "http://a.example" ++ str " changed!"]) := by
    rfl
  have hmain := perform_check_changed
    (fun _ => .ok (utf8Encode (str "<html><p id=x>hi</p></html>")))
    (fun _ => [⟨[(str "id", str "x")], str "<p id=x>hi</p>"⟩])
    (str "2026-10-12")
    [(str "http://a.example",
      [(str "hash", none), (str "filter", some (str "x")),
       (str "last_change_date", none)])]
    [(str "http://a.example",
      setKey (str "last_change_date") (some (str "2026-10-12"))
        (setKey (str "hash")
          (some (get_sha256 (utf8Encode (str "<p id=x>hi</p>"))))
          [(str "hash", none), (str "filter", some (str "x")),
           (str "last_change_date", none)]))]
    [str "http://a.example" ++ str " changed!"]
    0 (str "http://a.example")
    [(str "hash", none), (str "filter", some (str "x")),
     (str "last_change_date", none)]
    (get_sha256 (utf8Encode (str "<p id=x>hi</p>")))
    hrun (by decide) rfl rfl (by decide)
  exact ⟨hrun, hmain.2.1, hmain.2.2⟩

/-- C3: under a successful pass over records with distinct urls, every
record whose newly computed fingerprint equals its stored fingerprint is
returned with all its fields untouched and contributes no message to the
returned list. -/
theorem perform_check_unchanged (fetch : Str → Except MonitorError ByteStr)
    (parse : ByteStr → List Tag) (today : Str) (l : Records) (u : Records)
    (m : List Str) (i : Nat) (w : Str) (v : Attrs) (h : Str)
    (hrun : perform_check fetch parse today l = .ok (u, m))
    (hnodup : (l.map Prod.fst).Nodup)
    (hget : l[i]? = some (w, v))
    (hnew : newHashOf fetch parse w v = .ok h)
    (hsame : alistGet (str "hash") v = some (some h)) :
    u.length = l.length ∧
    u[i]? = some (w, v) ∧
    m.count (w ++ str " changed!") = 0 := by
  induction l generalizing i u m with
  | nil => simp at hget
  | cons r rest ih =>
    obtain ⟨w0, v0⟩ := r
    obtain ⟨v2, msg, rest2, msgs, hc, hp, hu, hm⟩ :=
      perform_check_cons_ok fetch parse today w0 v0 rest u m hrun
    subst hu
    subst hm
    simp only [List.map_cons, List.nodup_cons] at hnodup
    cases i with
    | zero =>
      simp only [List.getElem?_cons_zero, Option.some.injEq, Prod.mk.injEq] at hget
      obtain ⟨hw, hv⟩ := hget
      rw [← hw] at hnew ⊢
      rw [← hv] at hnew hsame ⊢
      obtain ⟨hv2, hmsg⟩ := checkOne_unchanged fetch parse today w0 v0 v2 msg h hc hnew hsame
      subst hv2
      subst hmsg
      refine ⟨by simp [perform_check_length fetch parse today rest rest2 msgs hp], by simp, ?_⟩
      rw [List.count_eq_zero]
      intro hmem
      obtain ⟨r2, hr2, hs⟩ := perform_check_msgs_mem fetch parse today rest rest2 msgs hp _ hmem
      have hww : w0 = r2.1 := List.append_left_injective _ hs
      exact hnodup.1 (hww ▸ List.mem_map_of_mem Prod.fst hr2)
    | succ j =>
      simp only [List.getElem?_cons_succ] at hget
      obtain ⟨hlen, hgetu, hcount⟩ := ih rest2 msgs j hp hnodup.2 hget
      refine ⟨by simp [hlen], by simpa using hgetu, ?_⟩
      have hwmem : w ∈ rest.map Prod.fst := by
        have hin : (w, v) ∈ rest := by
          obtain ⟨hj, hj2⟩ := List.getElem?_eq_some.mp hget
          exact hj2 ▸ List.getElem_mem hj
        exact List.mem_map_of_mem Prod.fst hin
      rcases checkOne_msg fetch parse today w0 v0 v2 msg hc with rfl | rfl
      · exact hcount
      · have hne : ¬ (w0 ++ str " changed!" = w ++ str " changed!") := by
          intro he
          have hww : w0 = w := List.append_left_injective _ he
          exact hnodup.1 (hww ▸ hwmem)
        simpa [List.count_cons, hne] using hcount

set_option maxRecDepth 100000 in
/-- C3 witness: one record whose stored fingerprint already equals the
fingerprint of the selected content; the pass leaves it untouched and
reports no message. -/
theorem perform_check_unchanged_witness :
    perform_check
        (fun _ => .ok (utf8Encode (str "<html><p id=x>hi</p></html>")))
        (fun _ => [⟨[(str "id", str "x")], str "<p id=x>hi</p>"⟩])
        (str "2026-10-12")
        [(str "http://a.example",
          [(str "hash", some (get_sha256 (utf8Encode (str "<p id=x>hi</p>")))),
           (str "filter", some (str "x")), (str "last_change_date", none)])] =
      .ok ([(str "http://a.example",
             [(str "hash", some (get_sha256 (utf8Encode (str "<p id=x>hi</p>")))),
              (str "filter", some (str "x")), (str "last_change_date", none)])],
            []) ∧
    [(str "http://a.example",
      [(str "hash", some (get_sha256 (utf8Encode (str "<p id=x>hi</p>")))),
       (str "filter", some (str "x")), (str "last_change_date", none)])][0]? =
      some (str "http://a.example",
        [(str "hash", some (get_sha256 (utf8Encode (str "<p id=x>hi</p>")))),
         (str "filter", some (str "x")), (str "last_change_date", none)]) ∧
    List.count (str "http://a.example" ++ str " changed!") ([] : List Str) = 0 := by
  have hrun :
      perform_check
        (fun _ => .ok (utf8Encode (str "<html><p id=x>hi</p></html>")))
        (fun _ => [⟨[(str "id", str "x")], str "<p id=x>hi</p>"⟩])
        (str "2026-10-12")
        [(str "http://a.example",
          [(str "hash", some (get_sha256 (utf8Encode (str "<p id=x>hi</p>")))),
           (str "filter", some (str "x")), (str "last_change_date", none)])] =
      .ok ([(str "http://a.example",
             [(str "hash", some (get_sha256 (utf8Encode (str "<p id=x>hi</p>")))),
              (str "filter", some (str "x")), (str "last_change_date", none)])],
            []) := by
    rfl
  have hmain := perform_check_unchanged
    (fun _ => .ok (utf8Encode (str "<html><p id=x>hi</p></html>")))
    (fun _ => [⟨[(str "id", str "x")], str "<p id=x>hi</p>"⟩])
    (str "2026-10-12")
    [(str "http://a.example",
      [(str "hash", some (get_sha256 (utf8Encode (str "<p id=x>hi</p>")))),
       (str "filter", some (str "x")), (str "last_change_date", none)])]
    [(str "http://a.example",
      [(str "hash", some (get_sha256 (utf8Encode (str "<p id=x>hi</p>")))),
       (str "filter", some (str "x")), (str "last_change_date", none)])]
    []
    0 (str "http://a.example")
    [(str "hash", some (get_sha256 (utf8Encode (str "<p id=x>hi</p>")))),
     (str "filter", some (str "x")), (str "last_change_date", none)]
    (get_sha256 (utf8Encode (str "<p id=x>hi</p>")))
    hrun (by decide) rfl rfl rfl
  exact ⟨hrun, hmain.2.1, hmain.2.2⟩

/-! ## Disabled-key collapsing -/

theorem lstripHash_head (l : Str) (c : Char)
    (h : (lstripHash l).head? = some c) : ¬ c = '#' := by
  induction l with
  | nil => simp [lstripHash] at h
  | cons a as ih =>
    by_cases ha : a = '#'
    · rw [lstripHash, List.dropWhile_cons] at h
      simp only [ha, if_pos] at h
      exact ih (by simpa [lstripHash] using h)
    · rw [lstripHash, List.dropWhile_cons] at h
      simp only [decide_eq_true_eq, ha, if_false] at h
      simp only [List.head?_cons, Option.some.injEq] at h
      exact h ▸ ha

theorem rstripWS_head (l : Str) (c : Char) (h : (rstripWS l).head? = some c) :
    l.head? = some c := by
  have hpre : rstripWS l <+: l := List.rdropWhile_prefix isWS l
  obtain ⟨t, ht⟩ := hpre
  cases hr : rstripWS l with
  | nil => rw [hr] at h; cases h
  | cons c2 cs =>
    rw [hr] at h ht
    simp only [List.head?_cons, Option.some.injEq] at h
    rw [← ht, ← h]
    rfl

theorem splitCellsGo_head (l acc : Str) :
    (splitCellsGo l acc).headD [] =
      acc.reverse ++ l.takeWhile (fun c => !decide (c = ',')) := by
  induction l generalizing acc with
  | nil => simp [splitCellsGo]
  | cons c cs ih =>
    by_cases hc : c = ','
    · simp [splitCellsGo, hc, List.takeWhile_cons]
    · rw [splitCellsGo]
      simp only [hc, if_false]
      rw [ih (c :: acc)]
      simp [List.takeWhile_cons, hc]

/-- First cell of a split line: the text up to the first comma. -/
theorem splitCells_head (l : Str) :
    (splitCells l).headD [] = l.takeWhile (fun c => !decide (c = ',')) := by
  simpa using splitCellsGo_head l []

theorem firstCell_no_hash (l : Str) :
    startsHash ((splitCells (rstripWS (lstripHash l))).headD []) = false := by
  rw [splitCells_head, startsHash, decide_eq_false_iff_not]
  intro hcon
  cases hl2 : (rstripWS (lstripHash l)) with
  | nil => rw [hl2] at hcon; cases hcon
  | cons c2 cs =>
    rw [hl2, List.takeWhile_cons] at hcon
    by_cases hc2 : c2 = ','
    · simp [hc2] at hcon
    · rw [if_pos (by simp [hc2])] at hcon
      simp only [List.head?_cons, Option.some.injEq] at hcon
      refine lstripHash_head l '#' ?_ rfl
      exact rstripWS_head (lstripHash l) '#' (by rw [hl2, ← hcon]; rfl)

theorem joinCells_cons (a : Str) (l : List Str) :
    ∃ rest, joinCells (a :: l) = a ++ rest := by
  cases l with
  | nil => exact ⟨[], (List.append_nil a).symm⟩
  | cons b bs => exact ⟨',' :: joinCells (b :: bs), rfl⟩

/-- C10: every persisted row beginning with one or more `#` characters is
stored by `get_commented_data` under the key made of exactly one `#`
followed by the row's original key with all of its leading `#` removed:
the stored key never begins with a second `#`, and the save step writes
the record back under this stored key verbatim at the start of its line,
so the marker multiplicity collapses to one. -/
theorem get_commented_data_collapse (headerLine : Str) (rows : List Str) (l : Str)
    (hl : l ∈ rows) (hh : startsHash l = true) :
    ∃ vals,
      ('#' :: (splitCells (rstripWS (lstripHash l))).headD [], vals) ∈
        get_commented_data (headerLine :: rows) ∧
      startsHash ((splitCells (rstripWS (lstripHash l))).headD []) = false ∧
      ∀ active : Records, ∃ rest,
        ('#' :: (splitCells (rstripWS (lstripHash l))).headD []) ++ rest ∈
          write_csv_data (mergeRecords active (get_commented_data (headerLine :: rows))) := by
  set key := '#' :: (splitCells (rstripWS (lstripHash l))).headD [] with hkey
  set header := splitCells (lstripComma (rstripWS headerLine)) with hheader
  set vals := header.zip ((splitCells (rstripWS (lstripHash l))).drop 1) with hvals
  have hcmem : splitCells (rstripWS (lstripHash l)) ∈
      (rows.filter startsHash).map (fun r => splitCells (rstripWS (lstripHash r))) :=
    List.mem_map_of_mem _ (List.mem_filter.mpr ⟨hl, hh⟩)
  have hmem : (key, vals) ∈ get_commented_data (headerLine :: rows) := by
    rw [get_commented_data]
    exact List.mem_map.mpr ⟨splitCells (rstripWS (lstripHash l)), hcmem, rfl⟩
  refine ⟨vals, hmem, firstCell_no_hash l, fun active => ?_⟩
  have hrec : (key, vals.map (fun p => (p.1, some p.2))) ∈
      mergeRecords active (get_commented_data (headerLine :: rows)) := by
    rw [mergeRecords]
    exact List.mem_append_right _ (List.mem_map_of_mem _ hmem)
  rw [write_csv_data]
  obtain ⟨rest, hrest⟩ := joinCells_cons key
    (((((mergeRecords active (get_commented_data (headerLine :: rows))).headD
        ([], [])).2.map Prod.fst)).map
      (fun n => renderCell (alistGet n (vals.map (fun p => (p.1, some p.2))))))
  refine ⟨rest, List.mem_cons_of_mem _ ?_⟩
  rw [← hrest]
  exact List.mem_map.mpr ⟨(key, vals.map (fun p => (p.1, some p.2))), hrec, rfl⟩

/-- C10 witness: a disabled row with two markers is stored and written
back with a single one. -/
theorem get_commented_data_collapse_witness :
    ('#' :: str "https://x", [(str "hash", str "abc")]) ∈
      get_commented_data [str ",hash", str "##https://x,abc"] ∧
    startsHash (str "https://x") = false := by
  obtain ⟨vals, h1, h2, h3⟩ := get_commented_data_collapse (str ",hash")
    [str "##https://x,abc"] (str "##https://x,abc") (by decide) (by decide)
  exact ⟨by decide, h2⟩

/-! ## Split/join algebra for the persistence round trip -/

theorem splitCellsGo_ne_nil (l acc : Str) : splitCellsGo l acc ≠ [] := by
  induction l generalizing acc with
  | nil => simp [splitCellsGo]
  | cons c cs ih =>
    rw [splitCellsGo]
    by_cases hc : c = ','
    · simp [hc]
    · simp only [hc, if_false]
      exact ih (c :: acc)

theorem joinCells_cons_ne (x : Str) (l : List Str) (h : l ≠ []) :
    joinCells (x :: l) = x ++ ',' :: joinCells l := by
  cases l with
  | nil => exact absurd rfl h
  | cons y ys => rfl

theorem joinCells_cons_cons (ch : Char) (k : Str) (tl : List Str) :
    joinCells ((ch :: k) :: tl) = ch :: joinCells (k :: tl) := by
  cases tl with
  | nil => rfl
  | cons y ys => rfl

theorem joinCells_splitCellsGo (l acc : Str) :
    joinCells (splitCellsGo l acc) = acc.reverse ++ l := by
  induction l generalizing acc with
  | nil => simp [splitCellsGo, joinCells]
  | cons c cs ih =>
    rw [splitCellsGo]
    by_cases hc : c = ','
    · simp only [hc, if_pos]
      rw [joinCells_cons_ne _ _ (splitCellsGo_ne_nil cs []), ih []]
      simp
    · simp only [hc, if_false]
      rw [ih (c :: acc)]
      simp

/-- Joining the split of a line gives the line back. -/
theorem joinCells_splitCells (l : Str) : joinCells (splitCells l) = l := by
  simpa using joinCells_splitCellsGo l []

theorem splitCellsGo_append_nocomma (cell : Str) (hc : ∀ ch ∈ cell, ¬ ch = ',') :
    ∀ r acc, splitCellsGo (cell ++ r) acc = splitCellsGo r (cell.reverse ++ acc) := by
  induction cell with
  | nil => intro r acc; simp
  | cons c cs ih =>
    intro r acc
    have hc0 : ¬ c = ',' := hc c (by simp)
    rw [List.cons_append, splitCellsGo]
    simp only [hc0, if_false]
    rw [ih (fun ch hch => hc ch (by simp [hch])) r (c :: acc)]
    simp

/-- Splitting the join of comma-free cells gives the cells back. -/
theorem splitCells_joinCells (cs : List Str) (hne : cs ≠ [])
    (hnc : ∀ cell ∈ cs, ∀ ch ∈ cell, ¬ ch = ',') :
    splitCells (joinCells cs) = cs := by
  induction cs with
  | nil => exact absurd rfl hne
  | cons x xs ih =>
    cases xs with
    | nil =>
      show splitCellsGo (joinCells [x]) [] = [x]
      have : joinCells [x] = x ++ [] := by simp [joinCells]
      rw [this, splitCellsGo_append_nocomma x (hnc x (by simp)) [] []]
      simp [splitCellsGo]
    | cons y ys =>
      rw [joinCells_cons_ne x (y :: ys) (by simp)]
      show splitCellsGo (x ++ ',' :: joinCells (y :: ys)) [] = x :: y :: ys
      rw [splitCellsGo_append_nocomma x (hnc x (by simp)) _ []]
      rw [splitCellsGo]
      simp only [if_pos]
      rw [List.append_nil, List.reverse_reverse]
      exact congrArg (x :: ·) (ih (by simp) (fun cell hcell => hnc cell (by simp [hcell])))

theorem splitCellsGo_no_comma (l : Str) :
    ∀ acc, (∀ ch ∈ acc, ¬ ch = ',') →
      ∀ cell ∈ splitCellsGo l acc, ∀ ch ∈ cell, ¬ ch = ',' := by
  induction l with
  | nil =>
    intro acc hacc cell hcell ch hch
    simp only [splitCellsGo, List.mem_singleton] at hcell
    subst hcell
    exact hacc ch (List.mem_reverse.mp hch)
  | cons c cs ih =>
    intro acc hacc cell hcell ch hch
    rw [splitCellsGo] at hcell
    by_cases hc : c = ','
    · simp only [hc, if_pos, List.mem_cons] at hcell
      rcases hcell with rfl | hcell
      · exact hacc ch (List.mem_reverse.mp hch)
      · exact ih [] (by simp) cell hcell ch hch
    · simp only [hc, if_false] at hcell
      refine ih (c :: acc) ?_ cell hcell ch hch
      intro ch2 hch2
      rcases List.mem_cons.mp hch2 with rfl | hch2
      · exact hc
      · exact hacc ch2 hch2

/-- Cells produced by a split contain no comma. -/
theorem splitCells_no_comma (l : Str) :
    ∀ cell ∈ splitCells l, ∀ ch ∈ cell, ¬ ch = ',' := by
  simpa [splitCells] using splitCellsGo_no_comma l [] (by simp)

/-- Characters of a join come from the cells or are commas. -/
theorem mem_joinCells (cs : List Str) (ch : Char) (h : ch ∈ joinCells cs) :
    ch = ',' ∨ ∃ cell ∈ cs, ch ∈ cell := by
  induction cs with
  | nil => cases h
  | cons x xs ih =>
    cases xs with
    | nil =>
      simp only [joinCells] at h
      exact Or.inr ⟨x, by simp, h⟩
    | cons y ys =>
      rw [joinCells_cons_ne x (y :: ys) (by simp)] at h
      rcases List.mem_append.mp h with h1 | h1
      · exact Or.inr ⟨x, by simp, h1⟩
      · rcases List.mem_cons.mp h1 with rfl | h1
        · exact Or.inl rfl
        · rcases ih h1 with h2 | ⟨cell, hcell, hch⟩
          · exact Or.inl h2
          · exact Or.inr ⟨cell, by simp [hcell], hch⟩

/-- Python `rstrip()` is the identity on whitespace-free text. -/
theorem rstripWS_eq_self (l : Str) (h : ∀ ch ∈ l, isWS ch = false) :
    rstripWS l = l := by
  rw [rstripWS]
  cases hr : l.reverse with
  | nil =>
    have : l = [] := by simpa using congrArg List.reverse hr
    simp [this, hr]
  | cons c cs =>
    have hcl : c ∈ l := by
      rw [← List.mem_reverse, hr]
      simp
    rw [List.dropWhile_cons_of_neg (by simp [h c hcl])]
    rw [← hr, List.reverse_reverse]

theorem lstripHash_of_head (l : Str) (h : startsHash l = false) : lstripHash l = l := by
  cases l with
  | nil => rfl
  | cons c cs =>
    simp only [startsHash, List.head?_cons, decide_eq_false_iff_not, Option.some.injEq] at h
    exact List.dropWhile_cons_of_neg (by simpa using h)

theorem lstripComma_of_head (l : Str) (c : Char) (hc : l.head? = some c) (h : ¬ c = ',') :
    lstripComma l = l := by
  cases l with
  | nil => cases hc
  | cons c2 cs =>
    simp only [List.head?_cons, Option.some.injEq] at hc
    subst hc
    exact List.dropWhile_cons_of_neg (by simpa using h)

theorem goodCh_spec (ch : Char) (h : goodCh ch = true) :
    ¬ ch = ',' ∧ ¬ ch = '#' ∧ isWS ch = false := by
  simp only [goodCh, Bool.not_eq_eq_eq_not, Bool.not_true, Bool.or_eq_false_iff,
    decide_eq_false_iff_not] at h
  exact ⟨h.1.1.1.1, h.1.1.1.2, h.2⟩

theorem goodCell_mem (s : Str) (h : goodCell s = true) (ch : Char) (hch : ch ∈ s) :
    goodCh ch = true :=
  List.all_eq_true.mp h ch hch

theorem alistGet_zip {α : Type} (names : List Str) (vals : List α)
    (hnd : names.Nodup) (hlen : names.length = vals.length) :
    names.map (fun n => alistGet n (names.zip vals)) = vals.map some := by
  induction names generalizing vals with
  | nil =>
    cases vals with
    | nil => rfl
    | cons v vs => cases hlen
  | cons n ns ih =>
    cases vals with
    | nil => cases hlen
    | cons v vs =>
      rw [List.nodup_cons] at hnd
      simp only [List.zip_cons_cons, List.map_cons]
      refine congrArg₂ (· :: ·) (by simp [alistGet]) ?_
      rw [← ih vs hnd.2 (by simpa using hlen)]
      refine List.map_congr_left ?_
      intro a ha
      have hne : ¬ n = a := fun he => hnd.1 (he ▸ ha)
      simp [alistGet, hne]

theorem zip_map_some (names : List Str) (cv : List Str) :
    (names.zip cv).map (fun p => (p.1, some p.2)) = names.zip (cv.map some) := by
  induction names generalizing cv with
  | nil => simp
  | cons n ns ih =>
    cases cv with
    | nil => simp
    | cons c cs => simp [ih]

theorem renderCell_cellValue (c : Str) : renderCell (some (cellValue c)) = c := by
  by_cases h : c = [] <;> simp [cellValue, renderCell, h]

theorem row_render_active (names : List Str) (cells : List Str)
    (hnd : names.Nodup) (hlen : cells.length = names.length + 1) :
    names.map (fun n =>
        renderCell (alistGet n (names.zip ((cells.drop 1).map cellValue)))) =
      cells.drop 1 := by
  have h9 := alistGet_zip names ((cells.drop 1).map cellValue) hnd (by simp [hlen])
  have h1 : names.map (fun n =>
        renderCell (alistGet n (names.zip ((cells.drop 1).map cellValue)))) =
      (names.map (fun n => alistGet n (names.zip ((cells.drop 1).map cellValue)))).map
        renderCell := by
    rw [List.map_map]
    rfl
  rw [h1, h9, List.map_map, List.map_map]
  refine (List.map_congr_left ?_).trans (List.map_id _)
  intro c hc
  exact renderCell_cellValue c

theorem row_render_disabled (names : List Str) (cv : List Str)
    (hnd : names.Nodup) (hlen : cv.length = names.length) :
    names.map (fun n =>
        renderCell (alistGet n ((names.zip cv).map (fun p => (p.1, some p.2))))) =
      cv := by
  rw [zip_map_some]
  have h9 := alistGet_zip names (cv.map some) hnd (by simp [hlen])
  have h1 : names.map (fun n =>
        renderCell (alistGet n (names.zip (cv.map some)))) =
      (names.map (fun n => alistGet n (names.zip (cv.map some)))).map renderCell := by
    rw [List.map_map]
    rfl
  rw [h1, h9, List.map_map, List.map_map]
  refine (List.map_congr_left ?_).trans (List.map_id _)
  intro c hc
  rfl

theorem header_parse (names : List Str) (hne : names ≠ [])
    (hgood : ∀ n ∈ names, goodCell n = true ∧ n ≠ []) :
    splitCells (lstripComma (rstripWS (joinCells ([] :: names)))) = names := by
  have hnc : ∀ cell ∈ names, ∀ ch ∈ cell, ¬ ch = ',' := by
    intro cell hcell ch hch
    exact (goodCh_spec ch (goodCell_mem cell (hgood cell hcell).1 ch hch)).1
  have hj : joinCells ([] :: names) = ',' :: joinCells names := by
    rw [joinCells_cons_ne [] names hne]
    rfl
  have hnoWS : ∀ ch ∈ joinCells ([] :: names), isWS ch = false := by
    intro ch hch
    rcases mem_joinCells _ ch hch with rfl | ⟨cell, hcell, hchcell⟩
    · rfl
    · rcases List.mem_cons.mp hcell with rfl | hcell2
      · cases hchcell
      · exact (goodCh_spec ch (goodCell_mem cell (hgood cell hcell2).1 ch hchcell)).2.2
  rw [rstripWS_eq_self _ hnoWS, hj]
  rw [lstripComma, List.dropWhile_cons_of_pos (by simp)]
  obtain ⟨n1, ns, rfl⟩ : ∃ n1 ns, names = n1 :: ns := by
    cases names with
    | nil => exact absurd rfl hne
    | cons a as => exact ⟨a, as, rfl⟩
  obtain ⟨c1, k1, rfl⟩ : ∃ c1 k1, n1 = c1 :: k1 := by
    cases n1 with
    | nil => exact absurd rfl (hgood [] (by simp)).2
    | cons a as => exact ⟨a, as, rfl⟩
  have hc1 : ¬ c1 = ',' := hnc (c1 :: k1) (by simp) c1 (by simp)
  show splitCells (lstripComma (joinCells ((c1 :: k1) :: ns))) = (c1 :: k1) :: ns
  have hhead : (joinCells ((c1 :: k1) :: ns)).head? = some c1 := by
    rw [joinCells_cons_cons]
    rfl
  rw [lstripComma_of_head _ c1 hhead hc1]
  exact splitCells_joinCells _ (by simp) hnc

theorem wf_elim (headerLine : Str) (rows : List Str)
    (hwf : wellFormedTable (headerLine :: rows) = true) :
    ((splitCells headerLine).headD [' ']).isEmpty = true ∧
    (splitCells headerLine).drop 1 ≠ [] ∧
    ((splitCells headerLine).drop 1).Nodup ∧
    (∀ n ∈ (splitCells headerLine).drop 1, goodCell n = true ∧ n ≠ []) ∧
    rows ≠ [] ∧
    (∀ l ∈ rows, goodRow ((splitCells headerLine).drop 1) l = true) := by
  rw [wellFormedTable] at hwf
  simp only [Bool.and_eq_true, Bool.not_eq_true', List.all_eq_true,
    decide_eq_true_eq, List.isEmpty_eq_false] at hwf
  obtain ⟨⟨⟨⟨⟨⟨h1, h2⟩, h3⟩, h4⟩, h5⟩, h6⟩, _⟩ := hwf
  refine ⟨h1, h2, h3, ?_, h5, h6⟩
  intro n hn
  have h := h4 n hn
  simp only [Bool.and_eq_true, Bool.not_eq_true', List.isEmpty_eq_false] at h
  exact h

theorem splitCells_header_shape (headerLine : Str)
    (h1 : ((splitCells headerLine).headD [' ']).isEmpty = true) :
    splitCells headerLine = [] :: (splitCells headerLine).drop 1 := by
  cases hc : splitCells headerLine with
  | nil => exact absurd hc (splitCellsGo_ne_nil _ _)
  | cons x xs =>
    rw [hc] at h1
    simp only [List.headD_cons, List.isEmpty_iff] at h1
    simp [h1]

theorem goodRow_active (names : List Str) (l : Str) (hg : goodRow names l = true)
    (hsh : startsHash l = false) :
    (splitCells l).length = names.length + 1 ∧
    goodValue ((splitCells l).headD []) = true ∧
    (∀ c ∈ (splitCells l).drop 1, (c.isEmpty || goodValue c) = true) ∧
    l ≠ [] := by
  rw [goodRow, hsh] at hg
  simp only [Bool.false_eq_true, if_false, Bool.and_eq_true, Bool.not_eq_true',
    List.isEmpty_eq_false, List.all_eq_true, beq_iff_eq] at hg
  exact ⟨hg.2.1.1, hg.2.1.2, hg.2.2, hg.1⟩

theorem goodRow_disabled (names : List Str) (l : Str) (hg : goodRow names l = true)
    (hsh : startsHash l = true) :
    (splitCells (rstripWS (lstripHash l))).length = names.length + 1 ∧
    (splitCells (rstripWS (lstripHash l))).headD [] ≠ [] ∧
    (∀ c ∈ splitCells (rstripWS (lstripHash l)), goodCell c = true) := by
  rw [goodRow, hsh] at hg
  simp only [if_true, Bool.and_eq_true, Bool.not_eq_true',
    List.isEmpty_eq_false, List.all_eq_true, beq_iff_eq] at hg
  exact ⟨hg.2.1.1, hg.2.1.2, hg.2.2⟩

theorem headD_cons_drop {α : Type} (l : List α) (d : α) (h : l ≠ []) :
    l.headD d :: l.drop 1 = l := by
  cases l with
  | nil => exact absurd rfl h
  | cons x xs => simp

theorem splitCells_ne_nil (l : Str) : splitCells l ≠ [] :=
  splitCellsGo_ne_nil l []

/-- C2: loading a well-formed table, saving the loaded active and disabled
record sets back (merged as the main loop does), and loading again
reproduces both record sets exactly — same order, same keys, same values. -/
theorem load_save_load (lines : List Str) (hwf : wellFormedTable lines = true) :
    get_csv_data (write_csv_data
        (mergeRecords (get_csv_data lines) (get_commented_data lines))) =
      get_csv_data lines ∧
    get_commented_data (write_csv_data
        (mergeRecords (get_csv_data lines) (get_commented_data lines))) =
      get_commented_data lines := by
  obtain ⟨headerLine, rows, rfl⟩ : ∃ h r, lines = h :: r := by
    cases lines with
    | nil => rw [wellFormedTable] at hwf; cases hwf
    | cons x xs => exact ⟨x, xs, rfl⟩
  obtain ⟨hh0, hnn, hnd, hgood, hrne, hrows⟩ := wf_elim headerLine rows hwf
  set names := (splitCells headerLine).drop 1 with hnamesdef
  have hnc : ∀ cell ∈ names, ∀ ch ∈ cell, ¬ ch = ',' := by
    intro cell hcell ch hch
    exact (goodCh_spec ch (goodCell_mem cell (hgood cell hcell).1 ch hch)).1
  have hshape : splitCells headerLine = [] :: names :=
    splitCells_header_shape headerLine hh0
  have hheaderLine : headerLine = joinCells ([] :: names) := by
    conv_lhs => rw [← joinCells_splitCells headerLine]
    rw [hshape]
  have hAct : get_csv_data (headerLine :: rows) =
      (rows.filter (fun l => !(startsHash l || l.isEmpty))).map (fun l =>
        ((splitCells l).headD [], names.zip (((splitCells l).drop 1).map cellValue))) := rfl
  have hheader_c : splitCells (lstripComma (rstripWS headerLine)) = names := by
    rw [hheaderLine]
    exact header_parse names hnn hgood
  have hCom0 : get_commented_data (headerLine :: rows) =
      ((rows.filter startsHash).map (fun l => splitCells (rstripWS (lstripHash l)))).map
        (fun c => ('#' :: c.headD [],
          (splitCells (lstripComma (rstripWS headerLine))).zip (c.drop 1))) := rfl
  have hCom : get_commented_data (headerLine :: rows) =
      ((rows.filter startsHash).map (fun l => splitCells (rstripWS (lstripHash l)))).map
        (fun c => ('#' :: c.headD [], names.zip (c.drop 1))) := by
    rw [hCom0]
    simp only [hheader_c]
  have hActFacts : ∀ l ∈ rows.filter (fun l => !(startsHash l || l.isEmpty)),
      startsHash l = false ∧ (splitCells l).length = names.length + 1 ∧
        splitCells l ≠ [] ∧ l.isEmpty = false := by
    intro l hl
    obtain ⟨hmem, hpred⟩ := List.mem_filter.mp hl
    have hp : startsHash l = false ∧ l.isEmpty = false := by
      simpa [Bool.not_eq_true', Bool.or_eq_false_iff] using hpred
    obtain ⟨hlen, _, _, _⟩ := goodRow_active names l (hrows l hmem) hp.1
    exact ⟨hp.1, hlen, splitCellsGo_ne_nil _ _, hp.2⟩
  have hComFacts : ∀ l ∈ rows.filter startsHash,
      (splitCells (rstripWS (lstripHash l))).length = names.length + 1 ∧
      (splitCells (rstripWS (lstripHash l))).headD [] ≠ [] ∧
      (∀ c ∈ splitCells (rstripWS (lstripHash l)), goodCell c = true) ∧
      startsHash ((splitCells (rstripWS (lstripHash l))).headD []) = false := by
    intro l hl
    obtain ⟨hmem, hpred⟩ := List.mem_filter.mp hl
    obtain ⟨h1, h2, h3⟩ := goodRow_disabled names l (hrows l hmem) hpred
    exact ⟨h1, h2, h3, firstCell_no_hash l⟩
  have hmnames : ((mergeRecords (get_csv_data (headerLine :: rows))
      (get_commented_data (headerLine :: rows))).headD ([], [])).2.map Prod.fst =
      names := by
    rw [hAct, hCom, mergeRecords]
    cases hra : rows.filter (fun l => !(startsHash l || l.isEmpty)) with
    | cons l0 ls =>
      simp only [List.map_cons, List.cons_append, List.headD_cons]
      have hlen := (hActFacts l0 (by rw [hra]; simp)).2.1
      exact List.map_fst_zip _ _ (by simp [hlen])
    | nil =>
      simp only [List.map_nil, List.nil_append]
      obtain ⟨r0, rs, hr0⟩ : ∃ r0 rs, rows = r0 :: rs := by
        cases rows with
        | nil => exact absurd rfl hrne
        | cons x xs => exact ⟨x, xs, rfl⟩
      have hr0sh : startsHash r0 = true := by
        by_contra hcon
        have hc2 : startsHash r0 = false := by
          simpa [Bool.not_eq_true'] using hcon
        have hr0g := goodRow_active names r0 (hrows r0 (by rw [hr0]; simp)) hc2
        have hr0m : r0 ∈ rows.filter (fun l => !(startsHash l || l.isEmpty)) :=
          List.mem_filter.mpr ⟨by rw [hr0]; simp,
            by simp [hc2, List.isEmpty_eq_false.mpr hr0g.2.2.2]⟩
        rw [hra] at hr0m
        cases hr0m
      have hcfne : rows.filter startsHash ≠ [] := by
        intro hnil
        have hm : r0 ∈ rows.filter startsHash :=
          List.mem_filter.mpr ⟨by rw [hr0]; simp, hr0sh⟩
        rw [hnil] at hm
        cases hm
      cases hcf : rows.filter startsHash with
      | nil => exact absurd hcf hcfne
      | cons c0 cs =>
        simp only [List.map_cons, List.headD_cons]
        have hlen := (hComFacts c0 (by rw [hcf]; simp)).1
        rw [zip_map_some]
        exact List.map_fst_zip _ _ (by simp [hlen])
  have houtShape : write_csv_data
      (mergeRecords (get_csv_data (headerLine :: rows))
        (get_commented_data (headerLine :: rows))) =
      joinCells ([] :: names) ::
        (rows.filter (fun l => !(startsHash l || l.isEmpty)) ++
          ((rows.filter startsHash).map
            (fun l => splitCells (rstripWS (lstripHash l)))).map
              (fun c => '#' :: joinCells c)) := by
    have hW : write_csv_data
        (mergeRecords (get_csv_data (headerLine :: rows))
          (get_commented_data (headerLine :: rows))) =
        joinCells ([] :: ((mergeRecords (get_csv_data (headerLine :: rows))
            (get_commented_data (headerLine :: rows))).headD ([], [])).2.map Prod.fst) ::
          (mergeRecords (get_csv_data (headerLine :: rows))
            (get_commented_data (headerLine :: rows))).map (fun r =>
              joinCells (r.1 ::
                (((mergeRecords (get_csv_data (headerLine :: rows))
                  (get_commented_data (headerLine :: rows))).headD
                    ([], [])).2.map Prod.fst).map
                  (fun n => renderCell (alistGet n r.2)))) := rfl
    rw [hW, hmnames]
    congr 1
    rw [hAct, hCom, mergeRecords, List.map_append]
    congr 1
    · rw [List.map_map]
      refine (List.map_congr_left ?_).trans (List.map_id _)
      intro l hl
      obtain ⟨hsh, hlen, hne, hemp⟩ := hActFacts l hl
      show joinCells ((splitCells l).headD [] :: names.map (fun n =>
          renderCell (alistGet n (names.zip (((splitCells l).drop 1).map cellValue))))) =
        id l
      rw [row_render_active names (splitCells l) hnd hlen,
          headD_cons_drop _ _ hne, joinCells_splitCells]
      rfl
    · rw [List.map_map, List.map_map]
      refine List.map_congr_left ?_
      intro c hc
      obtain ⟨l, hl, rfl⟩ := List.mem_map.mp hc
      obtain ⟨hlen, hkne, hgc, hnh⟩ := hComFacts l hl
      show joinCells (('#' :: (splitCells (rstripWS (lstripHash l))).headD []) ::
          names.map (fun n => renderCell (alistGet n
            ((names.zip ((splitCells (rstripWS (lstripHash l))).drop 1)).map
              (fun p => (p.1, some p.2)))))) =
        '#' :: joinCells (splitCells (rstripWS (lstripHash l)))
      rw [row_render_disabled names ((splitCells (rstripWS (lstripHash l))).drop 1) hnd
          (by simp [hlen]),
        joinCells_cons_cons, headD_cons_drop _ _ (splitCells_ne_nil _)]
  have hsplitH : splitCells (joinCells ([] :: names)) = [] :: names := by
    refine splitCells_joinCells _ (by simp) ?_
    intro cell hcell ch hch
    rcases List.mem_cons.mp hcell with rfl | h2
    · cases hch
    · exact hnc cell h2 ch hch
  constructor
  · rw [houtShape]
    have hA2 : get_csv_data (joinCells ([] :: names) ::
        (rows.filter (fun l => !(startsHash l || l.isEmpty)) ++
          ((rows.filter startsHash).map
            (fun l => splitCells (rstripWS (lstripHash l)))).map
              (fun c => '#' :: joinCells c))) =
        (((rows.filter (fun l => !(startsHash l || l.isEmpty)) ++
          ((rows.filter startsHash).map
            (fun l => splitCells (rstripWS (lstripHash l)))).map
              (fun c => '#' :: joinCells c))).filter
            (fun l => !(startsHash l || l.isEmpty))).map (fun l =>
          ((splitCells l).headD [],
            ((splitCells (joinCells ([] :: names))).drop 1).zip
              (((splitCells l).drop 1).map cellValue))) := rfl
    rw [hA2]
    simp only [hsplitH, List.drop_succ_cons, List.drop_zero]
    rw [List.filter_append]
    have hf1 : (rows.filter (fun l => !(startsHash l || l.isEmpty))).filter
        (fun l => !(startsHash l || l.isEmpty)) =
        rows.filter (fun l => !(startsHash l || l.isEmpty)) :=
      List.filter_eq_self.mpr (fun l hl => (List.mem_filter.mp hl).2)
    have hf2 : ((((rows.filter startsHash).map
        (fun l => splitCells (rstripWS (lstripHash l)))).map
          (fun c => '#' :: joinCells c))).filter
          (fun l => !(startsHash l || l.isEmpty)) = [] := by
      rw [List.filter_eq_nil_iff]
      intro l hl
      obtain ⟨c, hc, rfl⟩ := List.mem_map.mp hl
      simp [startsHash]
    rw [hf1, hf2, List.append_nil]
    exact hAct.symm
  · rw [houtShape]
    have hB2 : get_commented_data (joinCells ([] :: names) ::
        (rows.filter (fun l => !(startsHash l || l.isEmpty)) ++
          ((rows.filter startsHash).map
            (fun l => splitCells (rstripWS (lstripHash l)))).map
              (fun c => '#' :: joinCells c))) =
        (((rows.filter (fun l => !(startsHash l || l.isEmpty)) ++
          ((rows.filter startsHash).map
            (fun l => splitCells (rstripWS (lstripHash l)))).map
              (fun c => '#' :: joinCells c)).filter startsHash).map
            (fun l => splitCells (rstripWS (lstripHash l)))).map
          (fun c => ('#' :: c.headD [],
            (splitCells (lstripComma (rstripWS (joinCells ([] :: names))))).zip
              (c.drop 1))) := rfl
    rw [hB2]
    simp only [header_parse names hnn hgood]
    rw [List.filter_append]
    have hg1 : (rows.filter (fun l => !(startsHash l || l.isEmpty))).filter
        startsHash = [] := by
      rw [List.filter_eq_nil_iff]
      intro l hl
      have hsh := (hActFacts l hl).1
      simp [hsh]
    have hg2 : ((((rows.filter startsHash).map
        (fun l => splitCells (rstripWS (lstripHash l)))).map
          (fun c => '#' :: joinCells c))).filter startsHash =
        (((rows.filter startsHash).map
          (fun l => splitCells (rstripWS (lstripHash l)))).map
            (fun c => '#' :: joinCells c)) := by
      refine List.filter_eq_self.mpr ?_
      intro l hl
      obtain ⟨c, hc, rfl⟩ := List.mem_map.mp hl
      simp [startsHash]
    rw [hg1, hg2, List.nil_append, List.map_map, List.map_map]
    rw [hCom]
    refine List.map_congr_left ?_
    intro c hc
    obtain ⟨l, hl, rfl⟩ := List.mem_map.mp hc
    obtain ⟨hlen, hkne, hgc, hnh⟩ := hComFacts l hl
    have hsm : splitCells (rstripWS (lstripHash
        ('#' :: joinCells (splitCells (rstripWS (lstripHash l)))))) =
        splitCells (rstripWS (lstripHash l)) := by
      obtain ⟨h0, t, hct⟩ : ∃ h0 t, splitCells (rstripWS (lstripHash l)) = h0 :: t := by
        cases hc2 : splitCells (rstripWS (lstripHash l)) with
        | nil => exact absurd hc2 (splitCells_ne_nil _)
        | cons x xs => exact ⟨x, xs, rfl⟩
      obtain ⟨ch, k, hck⟩ : ∃ ch k, h0 = ch :: k := by
        rw [hct] at hkne
        simp only [List.headD_cons] at hkne
        cases hh : h0 with
        | nil => exact absurd hh hkne
        | cons x xs => exact ⟨x, xs, rfl⟩
      have hch : ¬ ch = '#' := by
        rw [hct, hck] at hnh
        simpa [startsHash] using hnh
      have hjoin_head : (joinCells (splitCells (rstripWS (lstripHash l)))).head? =
          some ch := by
        rw [hct, hck, joinCells_cons_cons]
        rfl
      have h1 : lstripHash ('#' :: joinCells (splitCells (rstripWS (lstripHash l)))) =
          joinCells (splitCells (rstripWS (lstripHash l))) := by
        rw [lstripHash, List.dropWhile_cons_of_pos (by simp)]
        have hsh2 : startsHash (joinCells (splitCells (rstripWS (lstripHash l)))) =
            false := by
          simp [startsHash, hjoin_head, hch]
        exact lstripHash_of_head _ hsh2
      have h2 : rstripWS (joinCells (splitCells (rstripWS (lstripHash l)))) =
          joinCells (splitCells (rstripWS (lstripHash l))) := by
        refine rstripWS_eq_self _ ?_
        intro ch2 hch2
        rcases mem_joinCells _ ch2 hch2 with rfl | ⟨cell, hcell, hchcell⟩
        · rfl
        · exact (goodCh_spec ch2 (goodCell_mem cell (hgc cell hcell) ch2 hchcell)).2.2
      rw [h1, h2]
      exact splitCells_joinCells _ (splitCells_ne_nil _) (splitCells_no_comma _)
    show (fun c => ('#' :: c.headD [], names.zip (c.drop 1)))
        (splitCells (rstripWS (lstripHash
          ('#' :: joinCells (splitCells (rstripWS (lstripHash l))))))) =
      (fun c => ('#' :: c.headD [], names.zip (c.drop 1)))
        (splitCells (rstripWS (lstripHash l)))
    rw [hsm]

set_option maxRecDepth 40000 in
/-- C2 witness: a concrete well-formed table with one active and one
disabled row survives the load-save-load round trip. -/
theorem load_save_load_witness :
    wellFormedTable [str ",hash,filter,last_change_date",
      str "https://a.example,abc123x,col-sm,2020-05-21",
      str "#https://b.example,def,,2020-10-01"] = true ∧
    get_csv_data (write_csv_data
        (mergeRecords
          (get_csv_data [str ",hash,filter,last_change_date",
            str "https://a.example,abc123x,col-sm,2020-05-21",
            str "#https://b.example,def,,2020-10-01"])
          (get_commented_data [str ",hash,filter,last_change_date",
            str "https://a.example,abc123x,col-sm,2020-05-21",
            str "#https://b.example,def,,2020-10-01"]))) =
      get_csv_data [str ",hash,filter,last_change_date",
        str "https://a.example,abc123x,col-sm,2020-05-21",
        str "#https://b.example,def,,2020-10-01"] ∧
    get_commented_data (write_csv_data
        (mergeRecords
          (get_csv_data [str ",hash,filter,last_change_date",
            str "https://a.example,abc123x,col-sm,2020-05-21",
            str "#https://b.example,def,,2020-10-01"])
          (get_commented_data [str ",hash,filter,last_change_date",
            str "https://a.example,abc123x,col-sm,2020-05-21",
            str "#https://b.example,def,,2020-10-01"]))) =
      get_commented_data [str ",hash,filter,last_change_date",
        str "https://a.example,abc123x,col-sm,2020-05-21",
        str "#https://b.example,def,,2020-10-01"] :=
  ⟨by decide,
   (load_save_load [str ",hash,filter,last_change_date",
      str "https://a.example,abc123x,col-sm,2020-05-21",
      str "#https://b.example,def,,2020-10-01"] (by decide)).1,
   (load_save_load [str ",hash,filter,last_change_date",
      str "https://a.example,abc123x,col-sm,2020-05-21",
      str "#https://b.example,def,,2020-10-01"] (by decide)).2⟩

end WebsiteMonitor
